import Mathlib

/-!
Shallow embedding of the timeline layout engine of `react-native-calendars`
(files `src/timeline/Packer.ts` and the timeline multi-day segmenter
`createEventSegments`), together with proofs of the specified properties.

Timestamps are modelled as integer milliseconds on a local-time scale
(no DST shifts), so `t % 86400000` is the millisecond-of-day and
`t / 86400000` (floor division) is the calendar-day index.  Pixel
quantities are modelled as rationals.
-/

/-- Number of milliseconds in one hour, as a rational (used by `diffHours`). -/
def msPerHourQ : ℚ := 3600000

/-- Number of milliseconds in one hour, as an integer. -/
def msPerHourZ : Int := 3600000

/-- Number of milliseconds in one calendar day. -/
def msPerDay : Int := 86400000

/-- Millisecond-of-day of 23:59:59.999, set when the source calls
`setHours(23, 59, 59, 999)`. -/
def endOfDayMs : Int := 86399999

/-- An event as consumed by `populateEvents` in `Packer.ts`: a `start` and
`end` instant (integer milliseconds; `end` is called `stop` because `end` is
a reserved word) plus the `index` added by `populateEvents` before sorting.
Opaque passthrough fields are irrelevant to the layout and omitted. -/
structure Ev where
  start : Int
  stop : Int
  index : Nat
deriving DecidableEq

/-- Embedding of `getEventDuration` (Packer.ts line 39): event duration in
milliseconds, `end - start`. -/
def getEventDuration (ev : Ev) : Int := ev.stop - ev.start

/-- Embedding of `isEventContained` (Packer.ts line 33): `eventA` is
completely contained within `eventB`'s time span. -/
def isEventContained (eventA eventB : Ev) : Bool :=
  decide (eventB.start ≤ eventA.start) && decide (eventA.stop ≤ eventB.stop)

/-- Embedding of `hasCollision` (Packer.ts line 73):
`a.end > b.start && a.start < b.end`. -/
def hasCollision (a b : Ev) : Bool :=
  decide (b.start < a.stop) && decide (a.start < b.stop)

/-- Embedding of `calcColumnSpan`'s loop over the columns to the right of
`columnIndex` (Packer.ts lines 81-88): stop at the first column holding a
colliding event, otherwise extend the span by one per column. -/
def calcColumnSpanAux (event : Ev) : List (List Ev) → Nat
  | [] => 0
  | column :: rest =>
    if column.any (fun ev => hasCollision event ev) then 0
    else 1 + calcColumnSpanAux event rest

/-- Embedding of `calcColumnSpan` (Packer.ts line 79): `colSpan` starts at 1
and grows over consecutive collision-free columns to the right. -/
def calcColumnSpan (event : Ev) (columnIndex : Nat) (columns : List (List Ev)) : Nat :=
  1 + calcColumnSpanAux event (columns.drop (columnIndex + 1))

/-- Modelled from the spec: `constants.screenWidth` of `src/commons/constants`
is the device screen width, an opaque runtime constant.  No claim depends on
its value. -/
def constantsScreenWidth : ℚ := 375

/-- Default constant `HOUR_BLOCK_HEIGHT` (Packer.ts line 27). -/
def HOUR_BLOCK_HEIGHT : ℚ := 100

/-- Default constant `RIGHT_EDGE_SPACING` (Packer.ts line 29). -/
def RIGHT_EDGE_SPACING : ℚ := 10

/-- Embedding of the `PopulateOptions` record with its destructuring
defaults (Packer.ts lines 8-14, 49, 99-103). -/
structure PopulateOptions where
  screenWidth : ℚ := constantsScreenWidth
  dayStart : ℚ := 0
  hourBlockHeight : ℚ := HOUR_BLOCK_HEIGHT
  rightEdgeSpacing : ℚ := RIGHT_EDGE_SPACING
deriving DecidableEq

/-- A packed event as returned by `buildEvent`: the original event fields
(`stop` keeps the original, possibly absent, `end`) plus the computed
geometry. -/
structure PackedEv where
  start : Int
  stop : Option Int
  index : Nat
  top : ℚ
  height : ℚ
  width : ℚ
  left : ℚ
  zIndex : Int
deriving DecidableEq

/-- Hours between two instants, as computed by XDate's `diffHours`. -/
def diffHours (t1 t2 : Int) : ℚ := ((t2 - t1 : Int) : ℚ) / msPerHourQ

/-- Midnight of the local calendar day containing instant `t`, as computed by
XDate's `clearTime` (Packer.ts line 54). -/
def dayStartTimeOf (t : Int) : Int := t - t % msPerDay

/-- Embedding of `buildEvent` (Packer.ts lines 45-69).  The event's fields
are passed explicitly; `stopOpt = none` models an absent `event.end`, in
which case the end time defaults to `start + 1 hour` (line 53). -/
def buildEvent (start : Int) (stopOpt : Option Int) (index : Nat)
    (left width : ℚ) (o : PopulateOptions) (zIndex : Int) : PackedEv :=
  let startTime := start
  let endTime := match stopOpt with
    | some e => e
    | none => startTime + msPerHourZ
  let dayStartTime := dayStartTimeOf startTime
  { start := start
    stop := stopOpt
    index := index
    top := (diffHours dayStartTime startTime - o.dayStart) * o.hourBlockHeight
    height := diffHours startTime endTime * o.hourBlockHeight
    width := width
    left := left
    zIndex := zIndex }

/-- One element of `eventsInGroup` in `packOverlappingEventGroup`
(Packer.ts lines 119-126): the event plus its computed `left`, `width`,
`duration` and `columnIndex`. -/
structure GroupItem where
  ev : Ev
  left : ℚ
  width : ℚ
  duration : Int
  columnIndex : Nat
deriving DecidableEq

/-- First pass of `packOverlappingEventGroup` (Packer.ts lines 105-128):
walk the columns in order and record each event's basic positioning. -/
def firstPass (columns : List (List Ev)) (o : PopulateOptions) : List GroupItem :=
  let totalWidth := o.screenWidth - o.rightEdgeSpacing
  columns.enum.flatMap (fun p =>
    p.2.map (fun event =>
      { ev := event
        left := ((p.1 : ℚ) / (columns.length : ℚ)) * totalWidth
        width := totalWidth * ((calcColumnSpan event p.1 columns : ℚ) / (columns.length : ℚ))
        duration := getEventDuration event
        columnIndex := p.1 }))

/-- Second pass of `packOverlappingEventGroup` (Packer.ts lines 132-152):
the z-index of the item at position `idx` is 10 per other item that contains
it with duration at least as large, plus a flat 5 if the item lasts under one
hour. -/
def zIndexFor (group : List GroupItem) (idx : Nat) (item : GroupItem) : Int :=
  10 * ((group.enum.filter (fun q =>
      decide (q.1 ≠ idx) &&
      isEventContained item.ev q.2.ev &&
      decide (item.duration ≤ q.2.duration))).length : Int) +
    (if item.duration < 60 * 60 * 1000 then 5 else 0)

/-- Embedding of `packOverlappingEventGroup` (Packer.ts lines 94-157): the
group's events in column order, each built with its first-pass geometry and
second-pass z-index. -/
def packOverlappingEventGroup (columns : List (List Ev)) (o : PopulateOptions) : List PackedEv :=
  let group := firstPass columns o
  group.enum.map (fun q =>
    buildEvent q.2.ev.start (some q.2.ev.stop) q.2.ev.index q.2.left q.2.width o
      (zIndexFor group q.1 q.2))

/-- Embedding of the sort comparator of `populateEvents` (Packer.ts lines
170-185) as a total preorder: start time ascending, then duration ascending,
then end time ascending. -/
def sortLe (a b : Ev) : Prop :=
  a.start < b.start ∨ (a.start = b.start ∧
    (getEventDuration a < getEventDuration b ∨
      (getEventDuration a = getEventDuration b ∧ a.stop ≤ b.stop)))

instance : DecidableRel sortLe := fun a b => by
  unfold sortLe
  infer_instance

instance : IsTotal Ev sortLe := by
  constructor
  intro a b
  unfold sortLe
  omega

instance : IsTrans Ev sortLe := by
  constructor
  intro a b c hab hbc
  unfold sortLe at *
  omega

/-- Embedding of the column-placement loop of `populateEvents` (Packer.ts
lines 197-212): append the event to the first column whose last-placed event
does not collide with it, else open a new column.  Columns are never empty,
so the `none` branch of `getLast?` is unreachable. -/
def placeEvent (ev : Ev) : List (List Ev) → List (List Ev)
  | [] => [[ev]]
  | col :: rest =>
    match col.getLast? with
    | some last =>
      if hasCollision last ev then col :: placeEvent ev rest
      else (col ++ [ev]) :: rest
    | none => col :: placeEvent ev rest

/-- State of the grouping loop of `populateEvents`: the running `lastEnd`,
the open columns of the current overlap group, and the groups already
flushed. -/
structure PackState where
  lastEnd : Option Int
  columns : List (List Ev)
  groups : List (List (List Ev))
deriving DecidableEq

/-- One iteration of the `events.forEach` loop of `populateEvents`
(Packer.ts lines 189-216): flush the current group when the event starts at
or after `lastEnd`, place the event into a column, and update `lastEnd`. -/
def stepEvent (ev : Ev) (s : PackState) : PackState :=
  let s1 : PackState :=
    match s.lastEnd with
    | some le =>
      if le ≤ ev.start then { lastEnd := none, columns := [], groups := s.groups ++ [s.columns] }
      else s
    | none => s
  let newLast : Int :=
    match s1.lastEnd with
    | none => ev.stop
    | some le => if le < ev.stop then ev.stop else le
  { lastEnd := some newLast, columns := placeEvent ev s1.columns, groups := s1.groups }

/-- The grouping loop of `populateEvents` run over a whole event list. -/
def runPack (l : List Ev) : PackState :=
  l.foldl (fun s ev => stepEvent ev s) { lastEnd := none, columns := [], groups := [] }

/-- Sorting step of `populateEvents` (Packer.ts lines 168-185): a stable sort
by the comparator `sortLe`. -/
def sortEvents (l : List Ev) : List Ev := l.insertionSort sortLe

/-- The overlap groups flushed by `populateEvents` (the groups flushed during
the loop plus the final non-empty column set, Packer.ts lines 220-222), each
a list of columns. -/
def eventGroups (l : List Ev) : List (List (List Ev)) :=
  let s := runPack (sortEvents l)
  s.groups ++ (if s.columns.isEmpty then [] else [s.columns])

/-- The indexing map of `populateEvents` (Packer.ts line 169): attach each
event's original position. -/
def indexEvents (evs : List (Int × Int)) : List Ev :=
  evs.enum.map (fun p => { start := p.2.1, stop := p.2.2, index := p.1 })

/-- Embedding of `populateEvents` (Packer.ts lines 161-224): index, sort and
group the events, then pack every flushed overlap group. -/
def populateEvents (evs : List (Int × Int)) (o : PopulateOptions) : List PackedEv :=
  (eventGroups (indexEvents evs)).flatMap (fun g => packOverlappingEventGroup g o)

/-- Embedding of the `UnavailableHours` record (Packer.ts lines 16-19);
`end` is called `stop`.  Hours may be fractional. -/
structure UnavailableHours where
  start : ℚ
  stop : ℚ
deriving DecidableEq

/-- Embedding of `UnavailableHoursOptions` with the destructuring defaults of
Packer.ts line 232. -/
structure UnavailableHoursOptions where
  hourBlockHeight : ℚ := 100
  dayStart : ℚ := 0
  dayEnd : ℚ := 24
deriving DecidableEq

/-- A produced unavailable-hours block: a `top`/`height` pixel rectangle. -/
structure UHBlock where
  top : ℚ
  height : ℚ
deriving DecidableEq

/-- The validation test of `buildUnavailableHoursBlocks` (Packer.ts lines
238-245): both hours in `[0, 25)` (lodash `inRange(h, 0, 25)`) and
`start < end`. -/
def validRange (hours : UnavailableHours) : Bool :=
  decide (0 ≤ hours.start) && decide (hours.start < 25) &&
  decide (0 ≤ hours.stop) && decide (hours.stop < 25) &&
  decide (hours.start < hours.stop)

/-- The block computed for a valid range (Packer.ts lines 246-251), with
`totalDayHours` and `totalDayHeight` as on lines 233-234. -/
def blockOf (o : UnavailableHoursOptions) (hours : UnavailableHours) : UHBlock :=
  let totalDayHours := o.dayEnd - o.dayStart
  let totalDayHeight := (o.dayEnd - o.dayStart) * o.hourBlockHeight
  let startFixed := max hours.start o.dayStart
  let endFixed := min hours.stop o.dayEnd
  { top := ((startFixed - o.dayStart) / totalDayHours) * totalDayHeight
    height := (endFixed - startFixed) * o.hourBlockHeight }

/-- Embedding of `buildUnavailableHoursBlocks` (Packer.ts lines 228-256):
map every range to its block or to nothing when validation fails (the source
maps to `undefined` and then filters falsy values away; the `console.error`
diagnostic is a side effect outside the value semantics). -/
def buildUnavailableHoursBlocks (unavailableHours : List UnavailableHours)
    (options : UnavailableHoursOptions) : List UHBlock :=
  unavailableHours.filterMap (fun hours =>
    if validRange hours then some (blockOf options hours) else none)

/-- Modelled from the spec: `getCalendarDateString` of `src/services` (not
under `src/`) renders the local calendar date of an instant as a date-only
string; dates are modelled by their day index, so it is floor division by
the day length. -/
def getCalendarDateString (t : Int) : Int := t / msPerDay

/-- An input event as consumed by `createEventSegments`: `start` or `end`
may be absent. -/
structure SegEvent where
  start : Option Int
  stop : Option Int
deriving DecidableEq

/-- The `dayType` tag of a segment: `'start'`, `'middle'` or `'end'`. -/
inductive DayType where
  | startDay : DayType
  | middleDay : DayType
  | endDay : DayType
deriving DecidableEq

/-- A segment produced by `createEventSegments`: the (possibly clamped)
`start`/`end`, the `segmentDate` tag, the `isEventSegment` flag, and, for
multi-day pieces, the `originalEvent` back-reference and `dayType`. -/
structure EventSegment where
  start : Int
  stop : Int
  segmentDate : Int
  isEventSegment : Bool
  originalEvent : Option SegEvent
  dayType : Option DayType
deriving DecidableEq

/-- The `while (currentDate <= endDateOnly)` loop of `createEventSegments`
(utils lines 50-94) for a multi-day event with start instant `s` and end
instant `e`: `currentDate` starts at midnight of `s`'s day and advances one
day per iteration together with `dayCount`, so iteration `dayCount` sees
`currentDate = startMid + dayCount * msPerDay`; the loop runs
`(endMid - startMid) / msPerDay + 1` times (zero times when the end midnight
precedes the start midnight). -/
def multiDaySegments (event : SegEvent) (s e : Int) (pageDates : List Int) : List EventSegment :=
  let startMid := s - s % msPerDay
  let endMid := e - e % msPerDay
  let endDateString := getCalendarDateString e
  let n : Nat := if endMid < startMid then 0 else ((endMid - startMid) / msPerDay).toNat + 1
  (List.range n).flatMap (fun dayCount =>
    let currentDate := startMid + (dayCount : Int) * msPerDay
    let dateString := getCalendarDateString currentDate
    if pageDates.contains dateString then
      if dayCount = 0 then
        [{ start := s
           stop := currentDate + endOfDayMs
           segmentDate := dateString
           isEventSegment := true
           originalEvent := some event
           dayType := some DayType.startDay }]
      else if dateString = endDateString then
        [{ start := currentDate
           stop := e
           segmentDate := dateString
           isEventSegment := true
           originalEvent := some event
           dayType := some DayType.endDay }]
      else
        [{ start := currentDate
           stop := currentDate + endOfDayMs
           segmentDate := dateString
           isEventSegment := true
           originalEvent := some event
           dayType := some DayType.middleDay }]
    else [])

/-- Embedding of `createEventSegments` (timeline utils lines 15-98): skip
events missing `start` or `end`; pass single-day events through with
`isEventSegment = false` when their date is visible; split multi-day events
with `multiDaySegments`. -/
def createEventSegments (events : List SegEvent) (pageDates : List Int) : List EventSegment :=
  events.flatMap (fun event =>
    match event.start, event.stop with
    | some s, some e =>
      let startDateString := getCalendarDateString s
      let endDateString := getCalendarDateString e
      if startDateString = endDateString then
        if pageDates.contains startDateString then
          [{ start := s
             stop := e
             segmentDate := startDateString
             isEventSegment := false
             originalEvent := none
             dayType := none }]
        else []
      else multiDaySegments event s e pageDates
    | _, _ => [])

/-- Closed form of the segment emitted by `multiDaySegments` at iteration
`k` (day `k` after the event's start date), used to characterise the loop. -/
def multiSegOf (event : SegEvent) (s e : Int) (k : Nat) : EventSegment :=
  let D0 := getCalendarDateString s
  let Dn := getCalendarDateString e
  let cur := msPerDay * (D0 + (k : Int))
  if k = 0 then
    { start := s, stop := cur + endOfDayMs, segmentDate := D0 + (k : Int),
      isEventSegment := true, originalEvent := some event,
      dayType := some DayType.startDay }
  else if D0 + (k : Int) = Dn then
    { start := cur, stop := e, segmentDate := D0 + (k : Int),
      isEventSegment := true, originalEvent := some event,
      dayType := some DayType.endDay }
  else
    { start := cur, stop := cur + endOfDayMs, segmentDate := D0 + (k : Int),
      isEventSegment := true, originalEvent := some event,
      dayType := some DayType.middleDay }

/-- Well-formedness of an event: its start is not after its end. -/
def wfEv (x : Ev) : Prop := x.start ≤ x.stop

/-- Ordering of two events stacked in one column: the earlier one ends at or
before the later one starts. -/
def colOrd (a b : Ev) : Prop := a.stop ≤ b.start

/-- The part of the sort order that survives ties: earlier start, or equal
start and no larger duration. -/
def tieLe (a b : Ev) : Prop :=
  a.start < b.start ∨ (a.start = b.start ∧ getEventDuration a ≤ getEventDuration b)

/-- Every column consists of well-formed events pairwise stacked in order. -/
def goodCols (cs : List (List Ev)) : Prop :=
  ∀ c ∈ cs, (∀ x ∈ c, wfEv x) ∧ c.Pairwise colOrd

/-! ## Helper lemmas -/

/-- Mapping a guarded singleton over a list and flattening is filtering then
mapping. -/
theorem flatMap_guard_singleton {α β : Type} (p : α → Bool) (g : α → β) :
    ∀ l : List α, (l.flatMap fun a => if p a then [g a] else []) = (l.filter p).map g := by
  intro l
  induction l with
  | nil => rfl
  | cons a t ih =>
    by_cases h : p a = true
    · simp [List.flatMap_cons, List.filter_cons, h, ih]
    · simp only [Bool.not_eq_true] at h
      simp [List.flatMap_cons, List.filter_cons, h, ih]

/-- Filtering with a guard followed by `filterMap` over `if` of `some` is the
same as filtering then mapping. -/
theorem filterMap_guard {α β : Type} (p : α → Bool) (g : α → β) :
    ∀ l : List α, (l.filterMap fun a => if p a then some (g a) else none) = (l.filter p).map g := by
  intro l
  induction l with
  | nil => rfl
  | cons a t ih =>
    by_cases h : p a = true
    · simp [List.filterMap_cons, List.filter_cons, h, ih]
    · simp only [Bool.not_eq_true] at h
      simp [List.filterMap_cons, List.filter_cons, h, ih]

example :
    (populateEvents [(0, 7200000), (3600000, 10800000)] {}).map PackedEv.zIndex = [0, 0] := by
  decide

example :
    eventGroups (indexEvents [(0, 7200000), (3600000, 10800000)]) =
      [[[{ start := 0, stop := 7200000, index := 0 }],
        [{ start := 3600000, stop := 10800000, index := 1 }]]] := by
  decide

example :
    buildUnavailableHoursBlocks [{ start := 1, stop := 5 }]
      { hourBlockHeight := 100, dayStart := 0, dayEnd := 24 } =
      [{ top := 100, height := 400 }] := by
  norm_num [buildUnavailableHoursBlocks, validRange, blockOf, List.filterMap_cons,
    List.filterMap_nil]

example :
    (createEventSegments [{ start := some 36000000, stop := some (2 * 86400000 + 50400000) }]
      [0, 1, 2]).map EventSegment.segmentDate = [0, 1, 2] := by
  decide

/-! ## Claims about `buildUnavailableHoursBlocks` -/

/-- C7: `buildUnavailableHoursBlocks` drops exactly the ranges with `start`
or `end` outside `[0, 25)` or with `start >= end`, preserving the order of the
surviving ranges with no sorting or merging (the output is the input filtered
by the validity test, each valid range mapped independently to its block);
in particular the range `{start: 23, end: 26}` with `dayEnd = 24` is
dropped. -/
theorem buildUnavailableHoursBlocks_filter :
    (∀ (l : List UnavailableHours) (o : UnavailableHoursOptions),
      buildUnavailableHoursBlocks l o = (l.filter validRange).map (blockOf o)) ∧
    buildUnavailableHoursBlocks [{ start := 23, stop := 26 }]
      { dayStart := 0, dayEnd := 24 } = [] := by
  constructor
  · intro l o
    exact filterMap_guard validRange (blockOf o) l
  · norm_num [buildUnavailableHoursBlocks, validRange, List.filterMap_cons]

/-- C8: for a valid range the emitted block has
`top = ((max(start, dayStart) - dayStart) / (dayEnd - dayStart)) * totalDayHeight`
with `totalDayHeight = (dayEnd - dayStart) * hourBlockHeight`, and
`height = (min(end, dayEnd) - max(start, dayStart)) * hourBlockHeight`. -/
theorem buildUnavailableHoursBlocks_valid_formula (h : UnavailableHours)
    (o : UnavailableHoursOptions)
    (h1 : 0 ≤ h.start) (h2 : h.start < 25) (h3 : 0 ≤ h.stop) (h4 : h.stop < 25)
    (h5 : h.start < h.stop) :
    buildUnavailableHoursBlocks [h] o =
      [{ top := ((max h.start o.dayStart - o.dayStart) / (o.dayEnd - o.dayStart)) *
            ((o.dayEnd - o.dayStart) * o.hourBlockHeight),
         height := (min h.stop o.dayEnd - max h.start o.dayStart) * o.hourBlockHeight }] := by
  have hv : validRange h = true := by
    simp only [validRange, Bool.and_eq_true, decide_eq_true_eq]
    exact ⟨⟨⟨⟨h1, h2⟩, h3⟩, h4⟩, h5⟩
  simp [buildUnavailableHoursBlocks, List.filterMap_cons, hv, blockOf]

/-- Witness for C8, which is Scenario 5 of the spec: the range
`{start: 1, end: 5}` with `dayStart = 0`, `dayEnd = 24`,
`hourBlockHeight = 100` yields `{top: 100, height: 400}`. -/
theorem buildUnavailableHoursBlocks_valid_formula_witness :
    buildUnavailableHoursBlocks [{ start := 1, stop := 5 }]
      { hourBlockHeight := 100, dayStart := 0, dayEnd := 24 } =
      [{ top := 100, height := 400 }] := by
  have h := buildUnavailableHoursBlocks_valid_formula { start := 1, stop := 5 }
    { hourBlockHeight := 100, dayStart := 0, dayEnd := 24 }
    (by norm_num) (by norm_num) (by norm_num) (by norm_num) (by norm_num)
  rw [h]
  norm_num

/-- C10: a range that passes validation but lies entirely outside the
visible window (`end <= dayStart` or `start >= dayEnd`) still produces a
block rather than being dropped, and (for a nonnegative hour-block height)
that block's height is zero or negative, because clamping makes
`endFixed <= startFixed`. -/
theorem buildUnavailableHoursBlocks_outside_window (h : UnavailableHours)
    (o : UnavailableHoursOptions) (hv : validRange h = true)
    (hH : 0 ≤ o.hourBlockHeight)
    (hout : h.stop ≤ o.dayStart ∨ o.dayEnd ≤ h.start) :
    buildUnavailableHoursBlocks [h] o = [blockOf o h] ∧ (blockOf o h).height ≤ 0 := by
  constructor
  · simp [buildUnavailableHoursBlocks, List.filterMap_cons, hv]
  · have hfac : min h.stop o.dayEnd - max h.start o.dayStart ≤ 0 := by
      rcases hout with hc | hc
      · have h1 : min h.stop o.dayEnd ≤ h.stop := min_le_left _ _
        have h2 : o.dayStart ≤ max h.start o.dayStart := le_max_right _ _
        linarith
      · have h1 : min h.stop o.dayEnd ≤ o.dayEnd := min_le_right _ _
        have h2 : h.start ≤ max h.start o.dayStart := le_max_left _ _
        linarith
    simpa [blockOf] using mul_nonpos_of_nonpos_of_nonneg hfac hH

/-- Witness for C10: the valid range `{start: 20, end: 22}` with
`dayEnd = 10` is emitted as a block of negative height. -/
theorem buildUnavailableHoursBlocks_outside_window_witness :
    buildUnavailableHoursBlocks [{ start := 20, stop := 22 }]
        { hourBlockHeight := 100, dayStart := 0, dayEnd := 10 } =
      [blockOf { hourBlockHeight := 100, dayStart := 0, dayEnd := 10 }
        { start := 20, stop := 22 }] ∧
    (blockOf { hourBlockHeight := 100, dayStart := 0, dayEnd := 10 }
      { start := 20, stop := 22 }).height ≤ 0 :=
  buildUnavailableHoursBlocks_outside_window { start := 20, stop := 22 }
    { hourBlockHeight := 100, dayStart := 0, dayEnd := 10 }
    (by norm_num [validRange]) (by norm_num) (by norm_num)

/-! ## Claim about `buildEvent` -/

/-- C6: the rectangle built for an event has
`top = (hours from midnight of the start day to the start - dayStart) * hourBlockHeight`
(the hours from midnight being the millisecond-of-day over one hour of
milliseconds) and `height = (hours from start to end) * hourBlockHeight`;
an absent end defaults to one hour, giving `height = hourBlockHeight`, and a
zero-duration event gets `height = 0` with no error. -/
theorem buildEvent_geometry (start : Int) (stopOpt : Option Int) (index : Nat)
    (left width : ℚ) (o : PopulateOptions) (z : Int) :
    (buildEvent start stopOpt index left width o z).top =
        (((start % msPerDay : Int) : ℚ) / msPerHourQ - o.dayStart) * o.hourBlockHeight ∧
    (∀ e : Int, stopOpt = some e →
      (buildEvent start stopOpt index left width o z).height =
        (((e - start : Int) : ℚ) / msPerHourQ) * o.hourBlockHeight) ∧
    (stopOpt = none →
      (buildEvent start stopOpt index left width o z).height = o.hourBlockHeight) ∧
    (stopOpt = some start →
      (buildEvent start stopOpt index left width o z).height = 0) := by
  refine ⟨?_, ?_, ?_, ?_⟩
  · simp [buildEvent, diffHours, dayStartTimeOf]
  · intro e he
    subst he
    simp [buildEvent, diffHours]
  · intro he
    subst he
    have h1 : ((msPerHourZ : Int) : ℚ) / msPerHourQ = 1 := by
      norm_num [msPerHourZ, msPerHourQ]
    simp [buildEvent, diffHours, h1]
  · intro he
    subst he
    simp [buildEvent, diffHours]

/-- Witness for C6: an event on day 2 at 03:00 lasting 30 minutes, with
default options (`dayStart = 0`, `hourBlockHeight = 100`), gets `top = 300`
and `height = 50`; the same start with an absent end gets `height = 100` and
with a zero-duration end gets `height = 0`. -/
theorem buildEvent_geometry_witness :
    (buildEvent 183600000 (some 185400000) 0 0 0 {} 0).top = 300 ∧
    (buildEvent 183600000 (some 185400000) 0 0 0 {} 0).height = 50 ∧
    (buildEvent 183600000 none 0 0 0 {} 0).height = 100 ∧
    (buildEvent 183600000 (some 183600000) 0 0 0 {} 0).height = 0 := by
  have h1 := buildEvent_geometry 183600000 (some 185400000) 0 0 0 {} 0
  have h2 := buildEvent_geometry 183600000 none 0 0 0 {} 0
  have h3 := buildEvent_geometry 183600000 (some 183600000) 0 0 0 {} 0
  refine ⟨?_, ?_, ?_, ?_⟩
  · rw [h1.1]
    have : (183600000 : Int) % msPerDay = 10800000 := by decide
    rw [this]
    norm_num [msPerHourQ, HOUR_BLOCK_HEIGHT]
  · rw [h1.2.1 185400000 rfl]
    norm_num [msPerHourQ, HOUR_BLOCK_HEIGHT]
  · rw [h2.2.2.1 rfl]
    norm_num [HOUR_BLOCK_HEIGHT]
  · exact h3.2.2.2 rfl

/-! ## Claims about `createEventSegments` -/

/-- C9: an event missing `start` or `end` produces nothing (a silent skip);
an event whose start and end share a calendar date produces exactly one
element carrying the original timestamps, tagged with that date and
`isEventSegment = false`, and only when that date is among the page dates
(otherwise nothing). -/
theorem createEventSegments_singleDay (startOpt stopOpt : Option Int) (pd : List Int) :
    ((startOpt = none ∨ stopOpt = none) →
      createEventSegments [{ start := startOpt, stop := stopOpt }] pd = []) ∧
    (∀ s e : Int, startOpt = some s → stopOpt = some e →
      getCalendarDateString s = getCalendarDateString e →
      createEventSegments [{ start := startOpt, stop := stopOpt }] pd =
        if getCalendarDateString s ∈ pd then
          [{ start := s, stop := e, segmentDate := getCalendarDateString s,
             isEventSegment := false, originalEvent := none, dayType := none }]
        else []) := by
  constructor
  · rintro (h | h)
    · subst h
      cases stopOpt <;> simp [createEventSegments]
    · subst h
      cases startOpt <;> simp [createEventSegments]
  · rintro s e rfl rfl heq
    by_cases hd : getCalendarDateString s ∈ pd
    · have hc : pd.contains (getCalendarDateString s) = true := List.elem_iff.mpr hd
      simp [createEventSegments, heq, hc, hd]
    · have hc : pd.contains (getCalendarDateString s) = false := by
        rcases h : pd.contains (getCalendarDateString s) with _ | _
        · rfl
        · exact absurd (List.elem_iff.mp h) hd
      simp [createEventSegments, heq, hc, hd]

/-- Witness for C9: an event with a missing end is skipped; a same-day event
on a visible date yields its single untouched element. -/
theorem createEventSegments_singleDay_witness :
    createEventSegments [{ start := some 1000, stop := none }] [0] = [] ∧
    createEventSegments [{ start := some 1000, stop := some 2000 }] [0] =
      [{ start := 1000, stop := 2000, segmentDate := 0, isEventSegment := false,
         originalEvent := none, dayType := none }] := by
  constructor
  · exact (createEventSegments_singleDay (some 1000) none [0]).1 (Or.inr rfl)
  · have h := (createEventSegments_singleDay (some 1000) (some 2000) [0]).2 1000 2000
      rfl rfl (by decide)
    rw [h]
    decide

/-- Projection: every segment of a multi-day event is tagged with the start
date shifted by its day count. -/
theorem multiSegOf_segmentDate (event : SegEvent) (s e : Int) (k : Nat) :
    (multiSegOf event s e k).segmentDate = getCalendarDateString s + (k : Int) := by
  by_cases hk : k = 0
  · simp [multiSegOf, hk]
  · by_cases hd : getCalendarDateString s + (k : Int) = getCalendarDateString e
    · simp [multiSegOf, hk, hd]
    · simp [multiSegOf, hk, hd]

/-- Projection: every segment of a multi-day event carries the segment flag
and the untouched original event. -/
theorem multiSegOf_tags (event : SegEvent) (s e : Int) (k : Nat) :
    (multiSegOf event s e k).isEventSegment = true ∧
    (multiSegOf event s e k).originalEvent = some event := by
  by_cases hk : k = 0
  · simp [multiSegOf, hk]
  · by_cases hd : getCalendarDateString s + (k : Int) = getCalendarDateString e
    · simp [multiSegOf, hk, hd]
    · simp [multiSegOf, hk, hd]

/-- Structural characterisation of `createEventSegments` on a multi-day
event: it is the day counts `0..n` filtered by page-date visibility, each
mapped to its closed-form segment. -/
theorem createEventSegments_multiDay_eq (s e : Int) (pd : List Int)
    (hse : s ≤ e) (hne : getCalendarDateString s ≠ getCalendarDateString e) :
    createEventSegments [{ start := some s, stop := some e }] pd =
      ((List.range ((getCalendarDateString e - getCalendarDateString s).toNat + 1)).filter
          (fun k : Nat => pd.contains (getCalendarDateString s + (k : Int)))).map
        (multiSegOf { start := some s, stop := some e } s e) := by
  have hdpos : (0 : Int) < msPerDay := by decide
  have hD : s / msPerDay ≤ e / msPerDay := Int.ediv_le_ediv hdpos hse
  have hsm : s - s % msPerDay = msPerDay * (s / msPerDay) := by
    have h := Int.ediv_add_emod s msPerDay
    omega
  have hem : e - e % msPerDay = msPerDay * (e / msPerDay) := by
    have h := Int.ediv_add_emod e msPerDay
    omega
  have hnonneg : ¬ (e - e % msPerDay < s - s % msPerDay) := by
    have h2 : msPerDay * (s / msPerDay) ≤ msPerDay * (e / msPerDay) :=
      mul_le_mul_of_nonneg_left hD (le_of_lt hdpos)
    omega
  have hdiff : (e - e % msPerDay - (s - s % msPerDay)) / msPerDay
      = e / msPerDay - s / msPerDay := by
    rw [hsm, hem, ← mul_sub]
    exact Int.mul_ediv_cancel_left _ (by decide)
  have hcur : ∀ k : Nat, s - s % msPerDay + (k : Int) * msPerDay
      = msPerDay * (s / msPerDay + (k : Int)) := by
    intro k
    rw [hsm]
    ring
  have hgc : ∀ k : Nat, msPerDay * (s / msPerDay + (k : Int)) / msPerDay
      = s / msPerDay + (k : Int) := by
    intro k
    exact Int.mul_ediv_cancel_left _ (by decide)
  have h1 : createEventSegments [{ start := some s, stop := some e }] pd
      = multiDaySegments { start := some s, stop := some e } s e pd := by
    simp [createEventSegments, hne]
  rw [h1]
  simp only [getCalendarDateString]
  rw [← flatMap_guard_singleton (fun k : Nat => pd.contains (s / msPerDay + (k : Int)))
      (multiSegOf { start := some s, stop := some e } s e)]
  simp only [multiDaySegments, multiSegOf, getCalendarDateString]
  rw [if_neg hnonneg, hdiff]
  congr 1
  funext k
  rw [hcur k, hgc k]
  by_cases hc : pd.contains (s / msPerDay + (k : Int)) = true
  · simp only [if_pos hc]
    by_cases hk : k = 0
    · simp [hk]
    · by_cases hd2 : s / msPerDay + (k : Int) = e / msPerDay
      · simp [hk, hd2]
      · simp [hk, hd2]
  · simp only [if_neg hc]

/-- Filtering a duplicate-free list for a key equal to a known member (and a
side condition) keeps exactly that member when the condition holds. -/
theorem filter_key : ∀ (l : List Nat), l.Nodup → ∀ (a : Nat), a ∈ l → ∀ (p : Nat → Bool),
    l.filter (fun k => decide (k = a) && p k) = if p a then [a] else [] := by
  intro l
  induction l with
  | nil =>
    intro _ a ha _
    cases ha
  | cons b t ih =>
    intro hnd a ha p
    have hnd' := List.nodup_cons.mp hnd
    rcases List.mem_cons.mp ha with hab | hat
    · subst hab
      have ht : t.filter (fun k => decide (k = a) && p k) = [] := by
        rw [List.filter_eq_nil_iff]
        intro x hx
        simp only [Bool.and_eq_true, decide_eq_true_eq, not_and]
        intro hxa
        exact absurd (hxa ▸ hx) hnd'.1
      by_cases hp : p a = true
      · simp [List.filter_cons, hp, ht]
      · simp only [Bool.not_eq_true] at hp
        simp [List.filter_cons, hp, ht]
    · have hba : decide (b = a) = false :=
        decide_eq_false_iff_not.mpr (fun hh => hnd'.1 (hh ▸ hat))
      rw [List.filter_cons]
      simp only [hba, Bool.false_and, Bool.false_eq_true, if_false]
      exact ih hnd'.2 a hat p

/-- C2: for a multi-day event (start and end on different calendar dates,
start not after end) the emitted segments cover exactly the intersection of
the event's inclusive date span with the page dates, one segment per date
with no duplicates and no gaps, each flagged `isEventSegment = true` and
holding the untouched original event. -/
theorem createEventSegments_coverage (s e : Int) (pd : List Int)
    (hse : s ≤ e) (hne : getCalendarDateString s ≠ getCalendarDateString e) :
    (∀ d : Int,
      ((createEventSegments [{ start := some s, stop := some e }] pd).map
          EventSegment.segmentDate).count d =
        if getCalendarDateString s ≤ d ∧ d ≤ getCalendarDateString e ∧ d ∈ pd
        then 1 else 0) ∧
    (∀ seg ∈ createEventSegments [{ start := some s, stop := some e }] pd,
      seg.isEventSegment = true ∧
      seg.originalEvent = some { start := some s, stop := some e }) := by
  have hL := createEventSegments_multiDay_eq s e pd hse hne
  have hdpos : (0 : Int) < msPerDay := by decide
  have hD : getCalendarDateString s ≤ getCalendarDateString e := Int.ediv_le_ediv hdpos hse
  constructor
  · intro d
    have hfun : EventSegment.segmentDate ∘ multiSegOf { start := some s, stop := some e } s e
        = fun k : Nat => getCalendarDateString s + (k : Int) := by
      funext k
      exact multiSegOf_segmentDate _ s e k
    rw [hL, List.map_map, hfun]
    have hn : ∀ k : Nat,
        k ∈ (List.range ((getCalendarDateString e - getCalendarDateString s).toNat + 1)).filter
          (fun k : Nat => pd.contains (getCalendarDateString s + (k : Int))) ↔
        (k : Int) ≤ getCalendarDateString e - getCalendarDateString s ∧
          pd.contains (getCalendarDateString s + (k : Int)) = true := by
      intro k
      rw [List.mem_filter, List.mem_range]
      constructor
      · rintro ⟨h1, h2⟩
        exact ⟨by omega, h2⟩
      · rintro ⟨h1, h2⟩
        exact ⟨by omega, h2⟩
    have hnd : ((List.range ((getCalendarDateString e - getCalendarDateString s).toNat + 1)).filter
          (fun k : Nat => pd.contains (getCalendarDateString s + (k : Int)))
        |>.map (fun k : Nat => getCalendarDateString s + (k : Int))).Nodup := by
      apply List.Nodup.map
      · intro k1 k2 hh
        simp only [add_right_inj, Nat.cast_inj] at hh
        exact hh
      · exact (List.nodup_range _).filter _
    have hmem : d ∈ ((List.range ((getCalendarDateString e - getCalendarDateString s).toNat + 1)).filter
          (fun k : Nat => pd.contains (getCalendarDateString s + (k : Int)))
        |>.map (fun k : Nat => getCalendarDateString s + (k : Int))) ↔
        (getCalendarDateString s ≤ d ∧ d ≤ getCalendarDateString e ∧ d ∈ pd) := by
      rw [List.mem_map]
      constructor
      · rintro ⟨k, hk, rfl⟩
        rcases (hn k).mp hk with ⟨h1, h2⟩
        exact ⟨by omega, by omega, List.elem_iff.mp h2⟩
      · rintro ⟨h1, h2, h3⟩
        refine ⟨(d - getCalendarDateString s).toNat, (hn _).mpr ⟨by omega, ?_⟩, by omega⟩
        have heq : getCalendarDateString s + (((d - getCalendarDateString s).toNat : Nat) : Int) = d := by
          omega
        rw [heq]
        exact List.elem_iff.mpr h3
    by_cases hd : getCalendarDateString s ≤ d ∧ d ≤ getCalendarDateString e ∧ d ∈ pd
    · rw [if_pos hd]
      exact List.count_eq_one_of_mem hnd (hmem.mpr hd)
    · rw [if_neg hd]
      exact List.count_eq_zero_of_not_mem (fun hm => hd (hmem.mp hm))
  · intro seg hseg
    rw [hL] at hseg
    rcases List.mem_map.mp hseg with ⟨k, _, rfl⟩
    exact multiSegOf_tags _ s e k

/-- Witness for C2: a three-day event from day 0 at 10:00 to day 2 at 14:00
with all three dates visible covers date 1 exactly once. -/
theorem createEventSegments_coverage_witness :
    ((createEventSegments [{ start := some 36000000, stop := some 223200000 }]
        [0, 1, 2]).map EventSegment.segmentDate).count 1 = 1 := by
  have h := (createEventSegments_coverage 36000000 223200000 [0, 1, 2]
    (by decide) (by decide)).1 1
  rw [h]
  decide

/-- C3: for a multi-day event whose start and end dates are both page dates,
the segment on the start date runs from the original start to 23:59:59.999
of that day with dayType start; the segment on the end date runs from
00:00:00.000 of that day to the original end with dayType end; every other
emitted segment spans the full day 00:00:00.000 to 23:59:59.999 with dayType
middle. -/
theorem createEventSegments_boundaries (s e : Int) (pd : List Int)
    (hse : s ≤ e) (hne : getCalendarDateString s ≠ getCalendarDateString e)
    (h0 : getCalendarDateString s ∈ pd) (hn : getCalendarDateString e ∈ pd) :
    (createEventSegments [{ start := some s, stop := some e }] pd).filter
        (fun seg => decide (seg.segmentDate = getCalendarDateString s)) =
      [{ start := s, stop := msPerDay * getCalendarDateString s + endOfDayMs,
         segmentDate := getCalendarDateString s, isEventSegment := true,
         originalEvent := some { start := some s, stop := some e },
         dayType := some DayType.startDay }] ∧
    (createEventSegments [{ start := some s, stop := some e }] pd).filter
        (fun seg => decide (seg.segmentDate = getCalendarDateString e)) =
      [{ start := msPerDay * getCalendarDateString e, stop := e,
         segmentDate := getCalendarDateString e, isEventSegment := true,
         originalEvent := some { start := some s, stop := some e },
         dayType := some DayType.endDay }] ∧
    (∀ seg ∈ createEventSegments [{ start := some s, stop := some e }] pd,
      seg.segmentDate ≠ getCalendarDateString s →
      seg.segmentDate ≠ getCalendarDateString e →
      seg.start = msPerDay * seg.segmentDate ∧
      seg.stop = msPerDay * seg.segmentDate + endOfDayMs ∧
      seg.dayType = some DayType.middleDay) := by
  have hL := createEventSegments_multiDay_eq s e pd hse hne
  have hdpos : (0 : Int) < msPerDay := by decide
  have hD : getCalendarDateString s ≤ getCalendarDateString e := Int.ediv_le_ediv hdpos hse
  have hDlt : getCalendarDateString s < getCalendarDateString e := lt_of_le_of_ne hD hne
  have hmZ : (((getCalendarDateString e - getCalendarDateString s).toNat : Nat) : Int)
      = getCalendarDateString e - getCalendarDateString s := Int.toNat_of_nonneg (by omega)
  refine ⟨?_, ?_, ?_⟩
  · have hpredeq : ((fun seg : EventSegment =>
        decide (seg.segmentDate = getCalendarDateString s)) ∘
          multiSegOf { start := some s, stop := some e } s e) =
        fun k : Nat => decide (k = 0) := by
      funext k
      simp only [Function.comp_apply, multiSegOf_segmentDate]
      rw [decide_eq_decide]
      omega
    rw [hL, List.filter_map, List.filter_filter, hpredeq]
    rw [filter_key _ (List.nodup_range _) 0 (List.mem_range.mpr (Nat.succ_pos _)) _]
    simp only [Nat.cast_zero, add_zero]
    rw [if_pos (List.elem_iff.mpr h0)]
    simp [multiSegOf]
  · have hpredeq : ((fun seg : EventSegment =>
        decide (seg.segmentDate = getCalendarDateString e)) ∘
          multiSegOf { start := some s, stop := some e } s e) =
        fun k : Nat => decide (k = (getCalendarDateString e - getCalendarDateString s).toNat) := by
      funext k
      simp only [Function.comp_apply, multiSegOf_segmentDate]
      rw [decide_eq_decide]
      omega
    rw [hL, List.filter_map, List.filter_filter, hpredeq]
    rw [filter_key _ (List.nodup_range _) _
      (List.mem_range.mpr (Nat.lt_succ_self _)) _]
    have hdn : getCalendarDateString s +
        (((getCalendarDateString e - getCalendarDateString s).toNat : Nat) : Int) =
        getCalendarDateString e := by omega
    have hpm : pd.contains (getCalendarDateString s +
        (((getCalendarDateString e - getCalendarDateString s).toNat : Nat) : Int)) = true := by
      rw [hdn]
      exact List.elem_iff.mpr hn
    rw [if_pos hpm]
    have hmne : ¬ ((getCalendarDateString e - getCalendarDateString s).toNat = 0) := by omega
    have hseg : multiSegOf { start := some s, stop := some e } s e
        ((getCalendarDateString e - getCalendarDateString s).toNat) =
        { start := msPerDay * getCalendarDateString e, stop := e,
          segmentDate := getCalendarDateString e, isEventSegment := true,
          originalEvent := some { start := some s, stop := some e },
          dayType := some DayType.endDay } := by
      simp only [multiSegOf]
      rw [if_neg hmne, if_pos hdn, hdn]
    rw [List.map_cons, List.map_nil, hseg]
  · intro seg hseg hne0 hnen
    rw [hL] at hseg
    rcases List.mem_map.mp hseg with ⟨k, _, rfl⟩
    have hsd := multiSegOf_segmentDate { start := some s, stop := some e } s e k
    have hk0 : ¬ (k = 0) := by
      intro hh
      apply hne0
      rw [hsd, hh]
      simp
    have hkd : ¬ (getCalendarDateString s + (k : Int) = getCalendarDateString e) := by
      intro hh
      exact hnen (by rw [hsd, hh])
    refine ⟨?_, ?_, ?_⟩ <;> simp [multiSegOf, hk0, hkd]

/-- Witness for C3, which is Scenario 3 of the spec: a three-day event from
day 0 at 10:00 to day 2 at 14:00 with all three dates visible gets a start
segment 10:00-23:59:59.999 on day 0 and an end segment 00:00-14:00 on
day 2. -/
theorem createEventSegments_boundaries_witness :
    (createEventSegments [{ start := some 36000000, stop := some 223200000 }]
        [0, 1, 2]).filter (fun seg => decide (seg.segmentDate = 0)) =
      [{ start := 36000000, stop := 86399999, segmentDate := 0, isEventSegment := true,
         originalEvent := some { start := some 36000000, stop := some 223200000 },
         dayType := some DayType.startDay }] ∧
    (createEventSegments [{ start := some 36000000, stop := some 223200000 }]
        [0, 1, 2]).filter (fun seg => decide (seg.segmentDate = 2)) =
      [{ start := 172800000, stop := 223200000, segmentDate := 2, isEventSegment := true,
         originalEvent := some { start := some 36000000, stop := some 223200000 },
         dayType := some DayType.endDay }] := by
  have h := createEventSegments_boundaries 36000000 223200000 [0, 1, 2]
    (by decide) (by decide) (by decide) (by decide)
  have h1 := h.1
  have h2 := h.2.1
  have e1 : getCalendarDateString 36000000 = 0 := by decide
  have e2 : getCalendarDateString 223200000 = 2 := by decide
  have e3 : msPerDay * (0 : Int) + endOfDayMs = 86399999 := by decide
  have e4 : msPerDay * (2 : Int) = 172800000 := by decide
  rw [e1, e3] at h1
  rw [e2, e4] at h2
  exact ⟨h1, h2⟩

/-! ## Claims about `packOverlappingEventGroup` -/

/-- Characterisation of the items recorded by the first pass of the group
packer: each carries the source formulas for `left`, `width` and `duration`,
and a column index within range. -/
theorem firstPass_mem (cols : List (List Ev)) (o : PopulateOptions) (a : GroupItem)
    (ha : a ∈ firstPass cols o) :
    a.left = ((a.columnIndex : ℚ) / (cols.length : ℚ)) * (o.screenWidth - o.rightEdgeSpacing) ∧
    a.width = (o.screenWidth - o.rightEdgeSpacing) *
      ((calcColumnSpan a.ev a.columnIndex cols : ℚ) / (cols.length : ℚ)) ∧
    a.duration = getEventDuration a.ev ∧
    a.columnIndex < cols.length := by
  simp only [firstPass, List.mem_flatMap] at ha
  rcases ha with ⟨p, hp, ha⟩
  rcases p with ⟨ci, col⟩
  rcases List.mem_map.mp ha with ⟨ev, _, rfl⟩
  exact ⟨rfl, rfl, rfl, (List.mem_enum hp).1⟩

/-- The group packer's output at position `k` is the `k`-th first-pass item
built with its geometry and its second-pass z-index. -/
theorem packGroup_get (cols : List (List Ev)) (o : PopulateOptions) (k : Nat) :
    (packOverlappingEventGroup cols o).get? k =
      Option.map (fun item => buildEvent item.ev.start (some item.ev.stop) item.ev.index
        item.left item.width o (zIndexFor (firstPass cols o) k item))
        ((firstPass cols o).get? k) := by
  simp only [packOverlappingEventGroup]
  rw [List.get?_map, List.get?_enum]
  cases h : (firstPass cols o).get? k <;> simp

/-- A successful lookup puts the indexed pair in the enumeration. -/
theorem get_mem_enum {α : Type} {l : List α} {k : Nat} {a : α} (h : l.get? k = some a) :
    (k, a) ∈ l.enum := by
  apply List.get?_mem
  rw [List.get?_enum, h]
  rfl

/-- A pair in the enumeration is the lookup at its index. -/
theorem enum_mem_get {α : Type} {l : List α} {k : Nat} {a : α} (h : (k, a) ∈ l.enum) :
    l.get? k = some a := by
  have h2 := List.mem_enum h
  rw [List.get?_eq_getElem?, List.getElem?_eq_getElem h2.1]
  exact congrArg some h2.2.symm

/-- Filtering by a weaker predicate keeps at least as many elements. -/
theorem length_filter_mono {α : Type} (p q : α → Bool) :
    ∀ l : List α, (∀ x ∈ l, p x = true → q x = true) →
      (l.filter p).length ≤ (l.filter q).length := by
  intro l
  induction l with
  | nil =>
    intro _
    simp
  | cons a t ih =>
    intro h
    have ht := ih (fun x hx => h x (List.mem_cons_of_mem a hx))
    by_cases hp : p a = true
    · have hq := h a (List.mem_cons_self a t) hp
      simp only [List.filter_cons, hp, hq, if_true, List.length_cons]
      omega
    · simp only [Bool.not_eq_true] at hp
      by_cases hq : q a = true
      · simp only [List.filter_cons, hp, hq, Bool.false_eq_true, if_false, if_true,
          List.length_cons]
        omega
      · simp only [Bool.not_eq_true] at hq
        simp only [List.filter_cons, hp, hq, Bool.false_eq_true, if_false]
        exact ht

/-- Filtering by a strictly weaker predicate (weaker pointwise, with one
member on which they differ) keeps strictly more elements. -/
theorem length_filter_lt {α : Type} (p q : α → Bool) :
    ∀ l : List α, (∀ x ∈ l, p x = true → q x = true) →
      ∀ x0 ∈ l, q x0 = true → p x0 = false →
      (l.filter p).length < (l.filter q).length := by
  intro l
  induction l with
  | nil =>
    intro _ x0 hx0
    cases hx0
  | cons a t ih =>
    intro h x0 hx0 hq0 hp0
    have hmono := length_filter_mono p q t (fun x hx => h x (List.mem_cons_of_mem a hx))
    rcases List.mem_cons.mp hx0 with rfl | hx0t
    · simp only [List.filter_cons, hp0, hq0, Bool.false_eq_true, if_false, if_true,
        List.length_cons]
      omega
    · have hlt := ih (fun x hx => h x (List.mem_cons_of_mem a hx)) x0 hx0t hq0 hp0
      by_cases hp : p a = true
      · have hq := h a (List.mem_cons_self a t) hp
        simp only [List.filter_cons, hp, hq, if_true, List.length_cons]
        omega
      · simp only [Bool.not_eq_true] at hp
        by_cases hq : q a = true
        · simp only [List.filter_cons, hp, hq, Bool.false_eq_true, if_false, if_true,
            List.length_cons]
          omega
        · simp only [Bool.not_eq_true] at hq
          simp only [List.filter_cons, hp, hq, Bool.false_eq_true, if_false]
          exact hlt

/-- Core z-index comparison: within one first-pass group, an item properly
contained in another (not the identical time range) with no larger duration
gets a strictly larger z-index, and at least 15 if it is additionally
sub-hour. -/
theorem zIndexFor_containment (cols : List (List Ev)) (o : PopulateOptions)
    (i j : Nat) (hij : i ≠ j) (A B : GroupItem)
    (hA : (firstPass cols o).get? i = some A)
    (hB : (firstPass cols o).get? j = some B)
    (hc1 : B.ev.start ≤ A.ev.start) (hc2 : A.ev.stop ≤ B.ev.stop)
    (hproper : A.ev.start ≠ B.ev.start ∨ A.ev.stop ≠ B.ev.stop) :
    zIndexFor (firstPass cols o) j B < zIndexFor (firstPass cols o) i A ∧
    (getEventDuration A.ev < 3600000 → 15 ≤ zIndexFor (firstPass cols o) i A) := by
  have hdurA : A.duration = getEventDuration A.ev :=
    (firstPass_mem cols o A (List.get?_mem hA)).2.2.1
  have hdurB : B.duration = getEventDuration B.ev :=
    (firstPass_mem cols o B (List.get?_mem hB)).2.2.1
  have hdurAB : getEventDuration A.ev ≤ getEventDuration B.ev := by
    simp only [getEventDuration]
    omega
  have hpoint : ∀ q ∈ (firstPass cols o).enum,
      (decide (q.1 ≠ j) && isEventContained B.ev q.2.ev &&
        decide (B.duration ≤ q.2.duration)) = true →
      (decide (q.1 ≠ i) && isEventContained A.ev q.2.ev &&
        decide (A.duration ≤ q.2.duration)) = true := by
    rintro ⟨qi, qit⟩ hq hqB
    simp only [Bool.and_eq_true, decide_eq_true_eq, isEventContained] at hqB ⊢
    obtain ⟨⟨hj', hcs, hce⟩, hdur⟩ := hqB
    have hq2 : qit ∈ firstPass cols o := by
      have hm := List.mem_enum hq
      rw [hm.2]
      exact List.getElem_mem hm.1
    have hdq : qit.duration = getEventDuration qit.ev := (firstPass_mem cols o qit hq2).2.2.1
    refine ⟨⟨?_, ?_, ?_⟩, ?_⟩
    · intro hqi
      subst hqi
      have hgt := enum_mem_get hq
      have hAq := Option.some.inj (hA.symm.trans hgt)
      subst hAq
      rcases hproper with h | h <;> omega
    · omega
    · omega
    · rw [hdurA, hdq]
      rw [hdurA, hdurB] at *
      omega
  have hwit_mem : ((j : Nat), B) ∈ (firstPass cols o).enum := get_mem_enum hB
  have hwitA : (decide (((j : Nat), B).1 ≠ i) && isEventContained A.ev ((j, B) : Nat × GroupItem).2.ev &&
      decide (A.duration ≤ ((j, B) : Nat × GroupItem).2.duration)) = true := by
    simp only [Bool.and_eq_true, decide_eq_true_eq, isEventContained]
    refine ⟨⟨fun hh => hij hh.symm, hc1, hc2⟩, ?_⟩
    rw [hdurA, hdurB]
    exact hdurAB
  have hwitB : (decide (((j : Nat), B).1 ≠ j) && isEventContained B.ev ((j, B) : Nat × GroupItem).2.ev &&
      decide (B.duration ≤ ((j, B) : Nat × GroupItem).2.duration)) = false := by
    simp
  have hcount := length_filter_lt
    (fun q : Nat × GroupItem => decide (q.1 ≠ j) && isEventContained B.ev q.2.ev &&
      decide (B.duration ≤ q.2.duration))
    (fun q : Nat × GroupItem => decide (q.1 ≠ i) && isEventContained A.ev q.2.ev &&
      decide (A.duration ≤ q.2.duration))
    (firstPass cols o).enum hpoint (j, B) hwit_mem hwitA hwitB
  have hposA : 0 < ((firstPass cols o).enum.filter
      (fun q : Nat × GroupItem => decide (q.1 ≠ i) && isEventContained A.ev q.2.ev &&
        decide (A.duration ≤ q.2.duration))).length :=
    List.length_pos_of_mem (List.mem_filter.mpr ⟨hwit_mem, hwitA⟩)
  constructor
  · simp only [zIndexFor]
    by_cases hb : B.duration < 60 * 60 * 1000
    · have ha' : A.duration < 60 * 60 * 1000 := by
        rw [hdurA]
        rw [hdurB] at hb
        omega
      rw [if_pos hb, if_pos ha']
      omega
    · rw [if_neg hb]
      by_cases ha' : A.duration < 60 * 60 * 1000
      · rw [if_pos ha']
        omega
      · rw [if_neg ha']
        omega
  · intro hsub
    simp only [zIndexFor]
    have hA5 : A.duration < 60 * 60 * 1000 := by
      rw [hdurA]
      omega
    rw [if_pos hA5]
    omega

/-- C4 (amended): for two events packed in the same overlap group, if A's
range is properly contained in B's (contained, and not the identical range)
with A's duration at most B's, then A's computed z-index is strictly greater
than B's; a sub-hour event properly contained in a longer one reaches a
stacking value of at least 15 above baseline (10 for containment plus 5 for
the sub-hour boost). -/
theorem packGroup_containment_zIndex (cols : List (List Ev)) (o : PopulateOptions)
    (i j : Nat) (hij : i ≠ j) (pA pB : PackedEv) (eA eB : Int)
    (hA : (packOverlappingEventGroup cols o).get? i = some pA)
    (hB : (packOverlappingEventGroup cols o).get? j = some pB)
    (heA : pA.stop = some eA) (heB : pB.stop = some eB)
    (hc1 : pB.start ≤ pA.start) (hc2 : eA ≤ eB)
    (hdur : eA - pA.start ≤ eB - pB.start)
    (hproper : pA.start ≠ pB.start ∨ eA ≠ eB) :
    pB.zIndex < pA.zIndex ∧ (eA - pA.start < 3600000 → 15 ≤ pA.zIndex) := by
  rw [packGroup_get] at hA hB
  cases hfa : (firstPass cols o).get? i with
  | none =>
    rw [hfa] at hA
    cases hA
  | some A =>
    cases hfb : (firstPass cols o).get? j with
    | none =>
      rw [hfb] at hB
      cases hB
    | some B =>
      rw [hfa] at hA
      rw [hfb] at hB
      simp only [Option.map_some'] at hA hB
      have hpA := Option.some.inj hA
      have hpB := Option.some.inj hB
      subst hpA
      subst hpB
      simp only [buildEvent] at heA heB hc1 hc2 hdur hproper ⊢
      have heA' := Option.some.inj heA
      have heB' := Option.some.inj heB
      subst heA'
      subst heB'
      have hz := zIndexFor_containment cols o i j hij A B hfa hfb hc1 hc2 hproper
      refine ⟨hz.1, fun hs => hz.2 ?_⟩
      simp only [getEventDuration]
      omega

/-- Counterexample to C4 as stated: two distinct events with identical time
ranges satisfy the claim's containment hypotheses (`A.start >= B.start`,
`A.end <= B.end`, duration less than or equal) in both directions, land in
the same flushed overlap group in different columns, yet receive equal
z-indexes (both 15), so neither is strictly above the other. -/
theorem populateEvents_equal_ranges_zIndex :
    eventGroups (indexEvents [(0, 1800000), (0, 1800000)]) =
      [[[{ start := 0, stop := 1800000, index := 0 }],
        [{ start := 0, stop := 1800000, index := 1 }]]] ∧
    (populateEvents [(0, 1800000), (0, 1800000)] {}).map
        (fun p => (p.start, p.stop, p.zIndex)) =
      [(0, some 1800000, 15), (0, some 1800000, 15)] := by
  constructor
  · decide
  · decide

/-- Witness for C4 (amended): a 30-minute event 01:00-01:30 properly inside
a 00:00-02:00 event: the short event's z-index 15 strictly exceeds the long
event's 0 and meets the 15 floor. -/
theorem packGroup_containment_zIndex_witness :
    ({ start := 0, stop := some 7200000, index := 0, top := 0, height := 2,
       width := 1, left := 0, zIndex := 0 } : PackedEv).zIndex <
      ({ start := 3600000, stop := some 5400000, index := 1, top := 1, height := 1/2,
         width := 1, left := 1, zIndex := 15 } : PackedEv).zIndex ∧
    ((5400000 : Int) - 3600000 < 3600000 →
      15 ≤ ({ start := 3600000, stop := some 5400000, index := 1, top := 1, height := 1/2,
              width := 1, left := 1, zIndex := 15 } : PackedEv).zIndex) :=
  packGroup_containment_zIndex
    [[{ start := 0, stop := 7200000, index := 0 }],
     [{ start := 3600000, stop := 5400000, index := 1 }]]
    { screenWidth := 2, dayStart := 0, hourBlockHeight := 1, rightEdgeSpacing := 0 }
    1 0 (by decide)
    { start := 3600000, stop := some 5400000, index := 1, top := 1, height := 1/2,
      width := 1, left := 1, zIndex := 15 }
    { start := 0, stop := some 7200000, index := 0, top := 0, height := 2,
      width := 1, left := 0, zIndex := 0 }
    5400000 7200000
    (by norm_num [packOverlappingEventGroup, firstPass, zIndexFor, buildEvent, calcColumnSpan,
      calcColumnSpanAux, hasCollision, isEventContained, getEventDuration, List.enum,
      List.enumFrom, diffHours, dayStartTimeOf, msPerHourQ, msPerDay])
    (by norm_num [packOverlappingEventGroup, firstPass, zIndexFor, buildEvent, calcColumnSpan,
      calcColumnSpanAux, hasCollision, isEventContained, getEventDuration, List.enum,
      List.enumFrom, diffHours, dayStartTimeOf, msPerHourQ, msPerDay])
    rfl rfl (by decide) (by decide) (by decide) (by decide)

/-- C5: within one overlap group of N columns with
`usableWidth = screenWidth - rightEdgeSpacing`, every event of column `i`
receives `left = (i / N) * usableWidth` and
`width = usableWidth * (columnSpan / N)`, an event with `columnSpan = 1` has
`width = usableWidth / N`, and the packed output carries exactly these
`left`/`width` values — all unconditionally; moreover, for a positive usable
width, left values of distinct columns strictly increase and a span-1
event's extent ends at or before the left edge of any column further
right. -/
theorem packGroup_geometry (cols : List (List Ev)) (o : PopulateOptions) (k : Nat)
    (a : GroupItem) (ha : (firstPass cols o).get? k = some a) :
    (a.left = ((a.columnIndex : ℚ) / (cols.length : ℚ)) * (o.screenWidth - o.rightEdgeSpacing) ∧
     a.width = (o.screenWidth - o.rightEdgeSpacing) *
       ((calcColumnSpan a.ev a.columnIndex cols : ℚ) / (cols.length : ℚ)) ∧
     (calcColumnSpan a.ev a.columnIndex cols = 1 →
       a.width = (o.screenWidth - o.rightEdgeSpacing) / (cols.length : ℚ)) ∧
     ((packOverlappingEventGroup cols o).get? k).map (fun p => (p.left, p.width)) =
       some (a.left, a.width)) ∧
    (∀ (l : Nat) (b : GroupItem), (firstPass cols o).get? l = some b →
      a.columnIndex < b.columnIndex → 0 < o.screenWidth - o.rightEdgeSpacing →
      a.left < b.left ∧
      (calcColumnSpan a.ev a.columnIndex cols = 1 → a.left + a.width ≤ b.left)) := by
  obtain ⟨hleftA, hwidthA, _, _⟩ := firstPass_mem cols o a (List.get?_mem ha)
  constructor
  · refine ⟨hleftA, hwidthA, ?_, ?_⟩
    · intro hspan
      rw [hwidthA, hspan]
      push_cast
      ring
    · rw [packGroup_get, ha]
      simp [buildEvent]
  · intro l b hb hcol husable
    obtain ⟨hleftB, _, _, hciB⟩ := firstPass_mem cols o b (List.get?_mem hb)
    have hNpos : 0 < (cols.length : ℚ) := by
      have hp : 0 < cols.length := Nat.lt_of_le_of_lt (Nat.zero_le _) hciB
      exact_mod_cast hp
    constructor
    · rw [hleftA, hleftB]
      apply mul_lt_mul_of_pos_right _ husable
      rw [div_lt_div_iff_of_pos_right hNpos]
      exact_mod_cast hcol
    · intro hspan
      rw [hleftA, hwidthA, hleftB, hspan]
      have hstep : ((a.columnIndex : ℚ) + 1) ≤ (b.columnIndex : ℚ) := by
        exact_mod_cast (by omega : (a.columnIndex + 1 : Nat) ≤ b.columnIndex)
      have hlhs : ((a.columnIndex : ℚ) / (cols.length : ℚ)) * (o.screenWidth - o.rightEdgeSpacing) +
          (o.screenWidth - o.rightEdgeSpacing) * (((1 : Nat) : ℚ) / (cols.length : ℚ)) =
          (((a.columnIndex : ℚ) + 1) / (cols.length : ℚ)) * (o.screenWidth - o.rightEdgeSpacing) := by
        push_cast
        ring
      rw [hlhs]
      apply mul_le_mul_of_nonneg_right _ (le_of_lt husable)
      rw [div_le_div_iff_of_pos_right hNpos]
      exact hstep

/-- Witness for C5: a two-column group with usable width 2: the first
column's span-1 event has `left = 0`, `width = 1`, strictly left of the
second column at `left = 1`. -/
theorem packGroup_geometry_witness :
    ((packOverlappingEventGroup
        [[{ start := 0, stop := 7200000, index := 0 }],
         [{ start := 3600000, stop := 5400000, index := 1 }]]
        { screenWidth := 2, dayStart := 0, hourBlockHeight := 1,
          rightEdgeSpacing := 0 }).get? 0).map (fun p => (p.left, p.width)) =
      some (0, 1) ∧
    (0 : ℚ) < 1 := by
  have h := packGroup_geometry
    [[{ start := 0, stop := 7200000, index := 0 }],
     [{ start := 3600000, stop := 5400000, index := 1 }]]
    { screenWidth := 2, dayStart := 0, hourBlockHeight := 1, rightEdgeSpacing := 0 }
    0
    { ev := { start := 0, stop := 7200000, index := 0 }, left := 0, width := 1,
      duration := 7200000, columnIndex := 0 }
    (by norm_num [firstPass, calcColumnSpan, calcColumnSpanAux, hasCollision,
      getEventDuration, List.enum, List.enumFrom])
  have hcmp := h.2 1
    { ev := { start := 3600000, stop := 5400000, index := 1 }, left := 1, width := 1,
      duration := 1800000, columnIndex := 1 }
    (by norm_num [firstPass, calcColumnSpan, calcColumnSpanAux, hasCollision,
      getEventDuration, List.enum, List.enumFrom])
    (by decide) (by norm_num)
  constructor
  · have h4 := h.1.2.2.2
    simpa using h4
  · exact hcmp.1

/-! ## Claim about column assignment in `populateEvents` -/

/-- The comparator's tie-stable part follows from the comparator. -/
theorem sortLe_tieLe {a b : Ev} (h : sortLe a b) : tieLe a b := by
  unfold sortLe tieLe at *
  omega

/-- The last element reported by `getLast?` is a member of the list. -/
theorem getLast_mem : ∀ (c : List Ev) (last : Ev), c.getLast? = some last → last ∈ c := by
  intro c
  induction c with
  | nil =>
    intro last hl
    cases hl
  | cons a t ih =>
    intro last hl
    cases t with
    | nil =>
      rw [List.getLast?_singleton] at hl
      rw [← Option.some.inj hl]
      exact List.mem_singleton.mpr rfl
    | cons b t' =>
      rw [List.getLast?_cons_cons] at hl
      exact List.mem_cons_of_mem a (ih last hl)

/-- In a column ordered by `colOrd`, every member is the last element or
precedes it in the order. -/
theorem getLast_rel : ∀ (c : List Ev), c.Pairwise colOrd → ∀ last, c.getLast? = some last →
    ∀ x ∈ c, x = last ∨ colOrd x last := by
  intro c
  induction c with
  | nil =>
    intro _ last hl
    cases hl
  | cons a t ih =>
    intro hp last hl x hx
    cases t with
    | nil =>
      rw [List.getLast?_singleton] at hl
      rcases List.mem_singleton.mp hx with rfl
      exact Or.inl (Option.some.inj hl)
    | cons b t' =>
      rw [List.getLast?_cons_cons] at hl
      rcases List.mem_cons.mp hx with rfl | hxt
      · right
        exact (List.pairwise_cons.mp hp).1 last (getLast_mem _ last hl)
      · exact ih (List.pairwise_cons.mp hp).2 last hl x hxt

/-- In a well-formed ordered column, every member ends no later than the
last-placed member ends. -/
theorem getLast_bound (c : List Ev) (hwf : ∀ x ∈ c, wfEv x) (hp : c.Pairwise colOrd)
    (last : Ev) (hl : c.getLast? = some last) : ∀ x ∈ c, x.stop ≤ last.stop := by
  intro x hx
  rcases getLast_rel c hp last hl x hx with rfl | hrel
  · exact le_refl _
  · have hwl := hwf last (getLast_mem c last hl)
    unfold wfEv at hwl
    unfold colOrd at hrel
    omega

/-- Every event found in the columns after a placement was either already
there or is the placed event. -/
theorem placeEvent_mem : ∀ (cs : List (List Ev)) (ev : Ev) (c : List Ev) (x : Ev),
    c ∈ placeEvent ev cs → x ∈ c → (∃ c' ∈ cs, x ∈ c') ∨ x = ev := by
  intro cs
  induction cs with
  | nil =>
    intro ev c x hc hx
    simp only [placeEvent] at hc
    rcases List.mem_singleton.mp hc with rfl
    rcases List.mem_singleton.mp hx with rfl
    exact Or.inr rfl
  | cons col rest ih =>
    intro ev c x hc hx
    simp only [placeEvent] at hc
    split at hc
    · split at hc
      · rcases List.mem_cons.mp hc with hceq | hcr
        · exact Or.inl ⟨col, List.mem_cons_self _ _, hceq ▸ hx⟩
        · rcases ih ev c x hcr hx with ⟨c', hc', hx'⟩ | hxe
          · exact Or.inl ⟨c', List.mem_cons_of_mem _ hc', hx'⟩
          · exact Or.inr hxe
      · rcases List.mem_cons.mp hc with hceq | hcr
        · rcases List.mem_append.mp (hceq ▸ hx) with hxc | hxe
          · exact Or.inl ⟨col, List.mem_cons_self _ _, hxc⟩
          · rcases List.mem_singleton.mp hxe with rfl
            exact Or.inr rfl
        · exact Or.inl ⟨c, List.mem_cons_of_mem _ hcr, hx⟩
    · rcases List.mem_cons.mp hc with hceq | hcr
      · exact Or.inl ⟨col, List.mem_cons_self _ _, hceq ▸ hx⟩
      · rcases ih ev c x hcr hx with ⟨c', hc', hx'⟩ | hxe
        · exact Or.inl ⟨c', List.mem_cons_of_mem _ hc', hx'⟩
        · exact Or.inr hxe

/-- Placing a well-formed event that sorts after everything already placed
preserves well-formed ordered columns. -/
theorem placeEvent_good : ∀ (cs : List (List Ev)) (ev : Ev), wfEv ev → goodCols cs →
    (∀ c ∈ cs, ∀ x ∈ c, tieLe x ev) → goodCols (placeEvent ev cs) := by
  intro cs
  induction cs with
  | nil =>
    intro ev hwf _ _ c hc
    simp only [placeEvent] at hc
    rcases List.mem_singleton.mp hc with rfl
    constructor
    · intro x hx
      rcases List.mem_singleton.mp hx with rfl
      exact hwf
    · exact List.pairwise_singleton _ _
  | cons col rest ih =>
    intro ev hwf hg htie c hc
    simp only [placeEvent] at hc
    split at hc
    case _ last hl =>
      split at hc
      case _ hcoll =>
        rcases List.mem_cons.mp hc with hceq | hcr
        · rw [hceq]
          exact hg col (List.mem_cons_self _ _)
        · exact ih ev hwf (fun c' hc' => hg c' (List.mem_cons_of_mem _ hc'))
            (fun c' hc' => htie c' (List.mem_cons_of_mem _ hc')) c hcr
      case _ hcoll =>
        rcases List.mem_cons.mp hc with hceq | hcr
        · rw [hceq]
          have hgc := hg col (List.mem_cons_self _ _)
          have hlast_mem : last ∈ col := getLast_mem col last hl
          have htl := htie col (List.mem_cons_self _ _) last hlast_mem
          have hwl := hgc.1 last hlast_mem
          have hkey : last.stop ≤ ev.start := by
            simp only [hasCollision, Bool.and_eq_true, decide_eq_true_eq, not_and, not_lt]
              at hcoll
            unfold tieLe at htl
            unfold wfEv at hwl hwf
            unfold getEventDuration at htl
            by_cases hcase : ev.start < last.stop
            · have := hcoll hcase
              omega
            · omega
          have hpw : ∀ x ∈ col, colOrd x ev := by
            intro x hx
            have := getLast_bound col hgc.1 hgc.2 last hl x hx
            unfold colOrd
            omega
          constructor
          · intro x hx
            rcases List.mem_append.mp hx with hxc | hxe
            · exact hgc.1 x hxc
            · rcases List.mem_singleton.mp hxe with rfl
              exact hwf
          · rw [List.pairwise_append]
            refine ⟨hgc.2, List.pairwise_singleton _ _, ?_⟩
            intro x hx y hy
            rcases List.mem_singleton.mp hy with rfl
            exact hpw x hx
        · exact hg c (List.mem_cons_of_mem _ hcr)
    case _ hl =>
      rcases List.mem_cons.mp hc with hceq | hcr
      · rw [hceq]
        exact hg col (List.mem_cons_self _ _)
      · exact ih ev hwf (fun c' hc' => hg c' (List.mem_cons_of_mem _ hc'))
          (fun c' hc' => htie c' (List.mem_cons_of_mem _ hc')) c hcr

/-- One step of the grouping loop either keeps the open columns (placing the
event into them) or flushes them as a group and places the event into a
fresh column set. -/
theorem stepEvent_groups_columns (ev : Ev) (s : PackState) :
    ((stepEvent ev s).groups = s.groups ∧
      (stepEvent ev s).columns = placeEvent ev s.columns) ∨
    ((stepEvent ev s).groups = s.groups ++ [s.columns] ∧
      (stepEvent ev s).columns = placeEvent ev []) := by
  cases hle : s.lastEnd with
  | none =>
    left
    constructor <;> simp [stepEvent, hle]
  | some le =>
    by_cases h : le ≤ ev.start
    · right
      constructor <;> simp [stepEvent, hle, h]
    · left
      constructor <;> simp [stepEvent, hle, h]

/-- Invariant of the grouping loop: starting from a state whose flushed
groups and open columns are well-formed ordered columns, and whose open
events all sort before the remaining (sorted, well-formed) input, the loop
keeps every flushed group and the final open columns well formed and
ordered. -/
theorem runPack_loop_invariant : ∀ (l : List Ev) (s : PackState),
    (∀ x ∈ l, wfEv x) → l.Pairwise sortLe →
    (∀ g ∈ s.groups, goodCols g) → goodCols s.columns →
    (∀ c ∈ s.columns, ∀ x ∈ c, ∀ ev ∈ l, tieLe x ev) →
    (∀ g ∈ (l.foldl (fun s ev => stepEvent ev s) s).groups, goodCols g) ∧
    goodCols (l.foldl (fun s ev => stepEvent ev s) s).columns := by
  intro l
  induction l with
  | nil =>
    intro s _ _ hgs hgc _
    exact ⟨hgs, hgc⟩
  | cons ev rest ih =>
    intro s hwf hsort hgs hgc htie
    rw [List.foldl_cons]
    have hwfe : wfEv ev := hwf ev (List.mem_cons_self _ _)
    have hempty : goodCols ([] : List (List Ev)) := by
      intro c hc
      cases hc
    rcases stepEvent_groups_columns ev s with ⟨hgr, hco⟩ | ⟨hgr, hco⟩
    · apply ih (stepEvent ev s)
      · intro x hx
        exact hwf x (List.mem_cons_of_mem _ hx)
      · exact (List.pairwise_cons.mp hsort).2
      · rw [hgr]
        exact hgs
      · rw [hco]
        exact placeEvent_good s.columns ev hwfe hgc
          (fun c hc x hx => htie c hc x hx ev (List.mem_cons_self _ _))
      · rw [hco]
        intro c hc x hx ev' hev'
        rcases placeEvent_mem s.columns ev c x hc hx with ⟨c', hc', hx'⟩ | rfl
        · exact htie c' hc' x hx' ev' (List.mem_cons_of_mem _ hev')
        · exact sortLe_tieLe ((List.pairwise_cons.mp hsort).1 ev' hev')
    · apply ih (stepEvent ev s)
      · intro x hx
        exact hwf x (List.mem_cons_of_mem _ hx)
      · exact (List.pairwise_cons.mp hsort).2
      · rw [hgr]
        intro g hg
        rcases List.mem_append.mp hg with hg1 | hg2
        · exact hgs g hg1
        · rcases List.mem_singleton.mp hg2 with rfl
          exact hgc
      · rw [hco]
        exact placeEvent_good [] ev hwfe hempty (fun c hc => absurd hc (List.not_mem_nil c))
      · rw [hco]
        intro c hc x hx ev' hev'
        rcases placeEvent_mem [] ev c x hc hx with ⟨c', hc', _⟩ | rfl
        · exact absurd hc' (List.not_mem_nil c')
        · exact sortLe_tieLe ((List.pairwise_cons.mp hsort).1 ev' hev')

/-- Every overlap group flushed by the grouping stage of `populateEvents`
consists of well-formed ordered columns. -/
theorem eventGroups_goodCols (l : List Ev) (hwf : ∀ x ∈ l, wfEv x) :
    ∀ g ∈ eventGroups l, goodCols g := by
  have hsorted : (sortEvents l).Pairwise sortLe := List.sorted_insertionSort sortLe l
  have hwf' : ∀ x ∈ sortEvents l, wfEv x := by
    intro x hx
    exact hwf x (((List.perm_insertionSort sortLe l).mem_iff).mp hx)
  have hinv := runPack_loop_invariant (sortEvents l)
    { lastEnd := none, columns := [], groups := [] } hwf' hsorted
    (fun g hg => absurd hg (List.not_mem_nil g))
    (fun c hc => absurd hc (List.not_mem_nil c))
    (fun c hc => absurd hc (List.not_mem_nil c))
  intro g hg
  simp only [eventGroups, runPack] at hg
  rcases List.mem_append.mp hg with hg1 | hg2
  · exact hinv.1 g hg1
  · by_cases hne : ((sortEvents l).foldl (fun s ev => stepEvent ev s)
        { lastEnd := none, columns := [], groups := [] }).columns.isEmpty = true
    · rw [if_pos hne] at hg2
      cases hg2
    · rw [if_neg hne] at hg2
      rcases List.mem_singleton.mp hg2 with rfl
      exact hinv.2

/-- C1: when every input event has start not after end, `populateEvents`
never places two strictly colliding events in the same column: inside every
column of every flushed overlap group the collision test
`a.end > b.start && a.start < b.end` is false for every pair of events, not
just adjacent ones. -/
theorem populateEvents_no_collision_in_column (evs : List (Int × Int))
    (h : ∀ p ∈ evs, p.1 ≤ p.2)
    (g : List (List Ev)) (hg : g ∈ eventGroups (indexEvents evs))
    (c : List Ev) (hc : c ∈ g) :
    c.Pairwise (fun a b => hasCollision a b = false) := by
  have hwf : ∀ x ∈ indexEvents evs, wfEv x := by
    intro x hx
    simp only [indexEvents, List.mem_map] at hx
    rcases hx with ⟨p, hp, rfl⟩
    rcases p with ⟨i, q⟩
    have hm := List.mem_enum hp
    have hq : q ∈ evs := by
      rw [hm.2]
      exact List.getElem_mem hm.1
    exact h q hq
  have hcgood := eventGroups_goodCols (indexEvents evs) hwf g hg c hc
  apply List.Pairwise.imp ?_ hcgood.2
  intro a b hab
  unfold colOrd at hab
  have h1 : decide (b.start < a.stop) = false := decide_eq_false_iff_not.mpr (not_lt.mpr hab)
  simp only [hasCollision, h1, Bool.false_and]

/-- Witness for C1: two overlapping events form one group with two
single-event columns, each trivially collision-free. -/
theorem populateEvents_no_collision_in_column_witness :
    (∀ p ∈ [((0 : Int), (7200000 : Int)), (3600000, 10800000)], p.1 ≤ p.2) ∧
    List.Pairwise (fun a b => hasCollision a b = false)
      [({ start := 0, stop := 7200000, index := 0 } : Ev)] :=
  ⟨by decide, populateEvents_no_collision_in_column
    [(0, 7200000), (3600000, 10800000)] (by decide)
    [[{ start := 0, stop := 7200000, index := 0 }],
     [{ start := 3600000, stop := 10800000, index := 1 }]] (by decide)
    [{ start := 0, stop := 7200000, index := 0 }] (by decide)⟩
